import Mathlib

/-!
Verification of the DevAssure incremental indexing pipeline.

This development is a shallow embedding of the folder-watching document
indexer of the DevAssure repository: the extension filter and chunk-id
scheme of src/indexer/indexer.py, the chunking front end of
src/indexer/utils/chunker.py, the CSV parser of
src/indexer/utils/parser.py, and the vector-store adapter of
src/indexer/utils/vector_store.py.  Python strings are embedded as Lean
strings (with the relevant str operations re-implemented on List Char so
that everything reduces in the kernel), hashlib.md5 is embedded as the
RFC 1321 MD5 algorithm over Nat arithmetic taken modulo 2^32, and the
backing Chroma collection, which the specification treats as an opaque
service with upsert add, delete-by-id and metadata-filter lookup, is
embedded as an association list keyed by record id.
-/

namespace DevAssure

/-! ## Python string primitives, re-implemented structurally -/

/-- Split a character list at every occurrence of the character c.  This is
Python str.split semantics for a one-character separator: splitting the
empty string gives one empty piece, and separators at the ends give empty
pieces. -/
def splitOnC (c : Char) : List Char → List (List Char)
  | [] => [[]]
  | x :: xs =>
    if x = c then [] :: splitOnC c xs
    else
      match splitOnC c xs with
      | s :: rest => (x :: s) :: rest
      | [] => [[x]]

/-- Last piece of a split, Python negative index [-1] on the nonempty result
of str.split. -/
def lastSegD (c : Char) (l : List Char) : List Char := (splitOnC c l).getLastD l

/-- Python str.lower, character by character. -/
def lowerL : List Char → List Char := List.map Char.toLower

/-- The expression file_path.lower().split(".")[-1] from is_supported_file in
src/indexer/indexer.py line 38. -/
def extOf (p : String) : String := ⟨lastSegD '.' (lowerL p.data)⟩

/-- Python os.path.basename on a POSIX path: the text after the last slash. -/
def pyBasename (p : String) : String := ⟨lastSegD '/' p.data⟩

/-- Python str.startswith(".") on the first character. -/
def startsWithDot (s : String) : Bool :=
  match s.data with
  | [] => false
  | c :: _ => c == '.'

/-- Python str.strip on a character list: leading and trailing whitespace
removed.  Only emptiness of the result is ever inspected. -/
def pyStripL (l : List Char) : List Char :=
  ((l.dropWhile Char.isWhitespace).reverse.dropWhile Char.isWhitespace).reverse

/-! ## The watcher extension filter (src/indexer/indexer.py lines 14 and 36-39) -/

/-- The constant SUPPORTED_EXTENSIONS of src/indexer/indexer.py line 14. -/
def SUPPORTED_EXTENSIONS : List String :=
  ["txt", "pdf", "docx", "jpg", "jpeg", "png", "bmp", "tiff", "csv"]

/-- The function is_supported_file of src/indexer/indexer.py lines 36-39:
the lowercased last dot-separated segment must be a supported extension and
the basename must not start with a dot. -/
def is_supported_file (file_path : String) : Bool :=
  decide (extOf file_path ∈ SUPPORTED_EXTENSIONS)
    && !startsWithDot (pyBasename file_path)

/-- Extension set named by the specification sentence on supported
extensions; it lists doc and gif in addition to the nine extensions the
code carries. -/
def claimedExtensionSet : List String :=
  ["txt", "pdf", "docx", "doc", "jpg", "jpeg", "png", "gif", "bmp", "tiff", "csv"]

/-- Support predicate exactly as the specification states it: extension in
the claimed set, compared case-insensitively, and basename not hidden. -/
def claimSupported (p : String) : Bool :=
  decide (extOf p ∈ claimedExtensionSet) && !startsWithDot (pyBasename p)

/-- Support predicate as the specification states it but over the extension
set the code actually carries, written here in alphabetical order. -/
def amendedExtensionSet : List String :=
  ["bmp", "csv", "docx", "jpeg", "jpg", "pdf", "png", "tiff", "txt"]

/-- Amended support predicate: the claimed set without doc and gif. -/
def amendedSupported (p : String) : Bool :=
  decide (extOf p ∈ amendedExtensionSet) && !startsWithDot (pyBasename p)

/-! ## MD5 (hashlib.md5, embedded as RFC 1321 over Nat mod 2^32) -/

/-- UTF-8 encoding of a single character, as byte values, which is what
Python str.encode produces per character. -/
def utf8Bytes (c : Char) : List Nat :=
  let n := c.toNat
  if n < 128 then [n]
  else if n < 2048 then [192 + n / 64, 128 + n % 64]
  else if n < 65536 then [224 + n / 4096, 128 + (n / 64) % 64, 128 + n % 64]
  else [240 + n / 262144, 128 + (n / 4096) % 64, 128 + (n / 64) % 64, 128 + n % 64]

/-- UTF-8 byte sequence of a string, the bytes Python str.encode produces. -/
def strBytes (s : String) : List Nat := s.data.flatMap utf8Bytes

/-- Reduction of a machine word modulo 2^32. -/
def mask32 (x : Nat) : Nat := x % 4294967296

/-- Bitwise complement of a 32-bit word. -/
def not32 (x : Nat) : Nat := Nat.xor x 4294967295

/-- Left rotation of a 32-bit word by s bits. -/
def rotl32 (s x : Nat) : Nat := Nat.lor (mask32 (x * 2 ^ s)) (x / 2 ^ (32 - s))

/-- The 64 sine-derived MD5 constants of RFC 1321. -/
def md5K : List Nat :=
  [0xd76aa478, 0xe8c7b756, 0x242070db, 0xc1bdceee,
   0xf57c0faf, 0x4787c62a, 0xa8304613, 0xfd469501,
   0x698098d8, 0x8b44f7af, 0xffff5bb1, 0x895cd7be,
   0x6b901122, 0xfd987193, 0xa679438e, 0x49b40821,
   0xf61e2562, 0xc040b340, 0x265e5a51, 0xe9b6c7aa,
   0xd62f105d, 0x02441453, 0xd8a1e681, 0xe7d3fbc8,
   0x21e1cde6, 0xc33707d6, 0xf4d50d87, 0x455a14ed,
   0xa9e3e905, 0xfcefa3f8, 0x676f02d9, 0x8d2a4c8a,
   0xfffa3942, 0x8771f681, 0x6d9d6122, 0xfde5380c,
   0xa4beea44, 0x4bdecfa9, 0xf6bb4b60, 0xbebfbc70,
   0x289b7ec6, 0xeaa127fa, 0xd4ef3085, 0x04881d05,
   0xd9d4d039, 0xe6db99e5, 0x1fa27cf8, 0xc4ac5665,
   0xf4292244, 0x432aff97, 0xab9423a7, 0xfc93a039,
   0x655b59c3, 0x8f0ccc92, 0xffeff47d, 0x85845dd1,
   0x6fa87e4f, 0xfe2ce6e0, 0xa3014314, 0x4e0811a1,
   0xf7537e82, 0xbd3af235, 0x2ad7d2bb, 0xeb86d391]

/-- The 64 MD5 per-step left-rotation amounts. -/
def md5S : List Nat :=
  [7, 12, 17, 22, 7, 12, 17, 22, 7, 12, 17, 22, 7, 12, 17, 22,
   5, 9, 14, 20, 5, 9, 14, 20, 5, 9, 14, 20, 5, 9, 14, 20,
   4, 11, 16, 23, 4, 11, 16, 23, 4, 11, 16, 23, 4, 11, 16, 23,
   6, 10, 15, 21, 6, 10, 15, 21, 6, 10, 15, 21, 6, 10, 15, 21]

/-- MD5 message padding: a 0x80 byte, zero bytes up to 56 modulo 64, then
the original bit length as eight little-endian bytes. -/
def md5Pad (msg : List Nat) : List Nat :=
  let len := msg.length
  let padLen := (119 - len % 64) % 64
  let bitLen := (len * 8) % 18446744073709551616
  msg ++ [128] ++ List.replicate padLen 0 ++
    [bitLen % 256, bitLen / 256 % 256, bitLen / 65536 % 256, bitLen / 16777216 % 256,
     bitLen / 4294967296 % 256, bitLen / 1099511627776 % 256,
     bitLen / 281474976710656 % 256, bitLen / 72057594037927936 % 256]

/-- Split a byte list into 64-byte blocks; the fuel argument, instantiated
with the list length, makes the recursion structural. -/
def blocks64 : Nat → List Nat → List (List Nat)
  | 0, _ => []
  | _, [] => []
  | fuel + 1, l => l.take 64 :: blocks64 fuel (l.drop 64)

/-- Decode a 64-byte block into 16 little-endian 32-bit words. -/
def blockWords (b : List Nat) : List Nat :=
  (List.range 16).map fun j =>
    b.getD (4 * j) 0 + 256 * b.getD (4 * j + 1) 0 +
      65536 * b.getD (4 * j + 2) 0 + 16777216 * b.getD (4 * j + 3) 0

/-- One of the 64 MD5 update steps on the state (a, b, c, d). -/
def md5Step (m : List Nat) (st : Nat × Nat × Nat × Nat) (i : Nat) : Nat × Nat × Nat × Nat :=
  let (a, b, c, d) := st
  let f :=
    if i < 16 then Nat.lor (Nat.land b c) (Nat.land (not32 b) d)
    else if i < 32 then Nat.lor (Nat.land d b) (Nat.land (not32 d) c)
    else if i < 48 then Nat.xor b (Nat.xor c d)
    else Nat.xor c (Nat.lor b (not32 d))
  let g :=
    if i < 16 then i
    else if i < 32 then (5 * i + 1) % 16
    else if i < 48 then (3 * i + 5) % 16
    else (7 * i) % 16
  let f := mask32 (f + a + md5K.getD i 0 + m.getD g 0)
  (d, mask32 (b + rotl32 (md5S.getD i 0) f), b, c)

/-- Process one 64-byte block, updating the running MD5 state. -/
def md5Block (st : Nat × Nat × Nat × Nat) (blk : List Nat) : Nat × Nat × Nat × Nat :=
  let m := blockWords blk
  let (a, b, c, d) := (List.range 64).foldl (md5Step m) st
  let (a0, b0, c0, d0) := st
  (mask32 (a0 + a), mask32 (b0 + b), mask32 (c0 + c), mask32 (d0 + d))

/-- Little-endian byte decomposition of a 32-bit word. -/
def wordBytesLE (x : Nat) : List Nat :=
  [x % 256, x / 256 % 256, x / 65536 % 256, x / 16777216 % 256]

/-- MD5 digest of a byte sequence, as 16 bytes. -/
def md5Digest (msg : List Nat) : List Nat :=
  let padded := md5Pad msg
  let bs := blocks64 padded.length padded
  let (a, b, c, d) := bs.foldl md5Block (0x67452301, 0xefcdab89, 0x98badcfe, 0x10325476)
  wordBytesLE a ++ wordBytesLE b ++ wordBytesLE c ++ wordBytesLE d

/-- Lowercase hexadecimal digit for a value below 16. -/
def hexDigit (n : Nat) : Char :=
  if n < 10 then Char.ofNat (48 + n) else Char.ofNat (87 + n)

/-- Lowercase hexadecimal rendering of a byte list. -/
def bytesToHex (bs : List Nat) : String :=
  ⟨bs.flatMap fun b => [hexDigit (b / 16), hexDigit (b % 16)]⟩

/-- Hex digest of the MD5 hash of the UTF-8 bytes of a string, the value
Python hashlib.md5(s.encode()).hexdigest() yields. -/
def md5Hex (s : String) : String := bytesToHex (md5Digest (strBytes s))

/-! ## Chunk ids (generate_doc_id, src/indexer/indexer.py lines 30-33) -/

/-- The function generate_doc_id of src/indexer/indexer.py lines 30-33: the
basename, the first eight hex characters of the md5 of the path, and the
chunk index, joined by underscores.  The index renders as Nat.repr, which
agrees with Python str on natural numbers. -/
def generate_doc_id (file_path : String) (index : Nat) : String :=
  let file_hash : String := ⟨(md5Hex file_path).data.take 8⟩
  pyBasename file_path ++ "_" ++ file_hash ++ "_" ++ Nat.repr index

/-- Chunk-id formula exactly as the specification words it, assembled at the
character level: basename of the path, an underscore, the first 8 hex
characters of the md5 of the full path, an underscore, and the ordinal. -/
def claimChunkIdFormula (path : String) (ordinal : Nat) : String :=
  ⟨(pyBasename path).data ++ '_' :: ((md5Hex path).data.take 8)
      ++ '_' :: (Nat.repr ordinal).data⟩

/-! ## Decimal rendering facts, for injectivity of chunk ids in the ordinal -/

/-- Numeric value of a decimal digit character. -/
def charDigitVal (c : Char) : Nat := c.toNat - 48

/-- One step of reading a decimal numeral left to right. -/
def digitsStep (a : Nat) (c : Char) : Nat := 10 * a + charDigitVal c

/-- Value of a decimal numeral given as a character list. -/
def digitsVal (l : List Char) : Nat := l.foldl digitsStep 0

/-! ## Data model: metadata maps, parsed units, chunks, index records -/

/-- Metadata values: the pipeline stores strings and natural numbers. -/
inductive MVal where
  | s (v : String)
  | n (v : Nat)
deriving DecidableEq

/-- Metadata: an insertion-ordered string-keyed map, as a Python dict. -/
abbrev Metadata := List (String × MVal)

/-- Python dict assignment d[k] = v: replace the value in place when the key
is present, append otherwise. -/
def setMeta (k : String) (v : MVal) : Metadata → Metadata
  | [] => [(k, v)]
  | (k2, v2) :: rest => if k2 = k then (k, v) :: rest else (k2, v2) :: setMeta k v rest

/-- Python dict lookup d.get(k). -/
def getMeta (k : String) (m : Metadata) : Option MVal := List.lookup k m

/-- Document dictionary of the pipeline, with content and metadata keys;
both the parser outputs and the chunker outputs have this shape. -/
structure ChunkDoc where
  content : String
  metadata : Metadata
deriving DecidableEq

/-- Record persisted in the vector store: content plus metadata.  The
embedding vector lives behind the opaque embedding function and never
influences the orchestrator logic, so it is not carried. -/
structure IndexRecord where
  content : String
  metadata : Metadata
deriving DecidableEq

/-- State of the backing collection: an association list keyed by record
id, in insertion order. -/
abbrev Store := List (String × IndexRecord)

/-- Record ids present in a store. -/
def keysOf (st : Store) : List String := st.map Prod.fst

/-- Test whether the metadata source field of a record equals a path. -/
def recordSourceIs (path : String) (r : IndexRecord) : Bool :=
  getMeta "source" r.metadata == some (MVal.s path)

/-! ## Vector store adapter (src/indexer/utils/vector_store.py)

Modelled from the spec: the backing Chroma collection object is an external
service, absent from the sources; the specification fixes its adapter
contract as upsert add, delete-by-id that ignores unknown ids, and lookup
of all ids whose metadata source field equals a path, and the adapter
methods of ChromaVectorStore delegate to it one for one. -/

/-- Upsert of one record into the collection: overwrite in place when the
id exists, append otherwise. -/
def colAdd (st : Store) (id : String) (r : IndexRecord) : Store :=
  match st with
  | [] => [(id, r)]
  | (k, v) :: rest => if k = id then (id, r) :: rest else (k, v) :: colAdd rest id r

/-- Pair up parallel id, document and metadata lists, as the collection does
with the three parallel arguments of add. -/
def zipTriples : List String → List String → List Metadata → List (String × IndexRecord)
  | id :: ids, c :: cs, m :: ms => (id, ⟨c, m⟩) :: zipTriples ids cs ms
  | _, _, _ => []

/-- Fold upserts of a list of keyed records into the store. -/
def addAll (ts : List (String × IndexRecord)) (st : Store) : Store :=
  ts.foldl (fun acc t => colAdd acc t.1 t.2) st

/-- Method add_documents of ChromaVectorStore, lines 22-33 of
src/indexer/utils/vector_store.py: upsert the parallel lists of ids,
documents and metadatas. -/
def add_documents (ids documents : List String) (metadatas : List Metadata)
    (st : Store) : Store :=
  addAll (zipTriples ids documents metadatas) st

/-- Method delete_documents of ChromaVectorStore, lines 35-37: remove the
records with the given ids; unknown ids are ignored. -/
def delete_documents (ids : List String) (st : Store) : Store :=
  st.filter fun e => !decide (e.1 ∈ ids)

/-- Method get_documents_by_source of ChromaVectorStore, lines 39-44: ids of
all records whose metadata source field equals the given path. -/
def get_documents_by_source (source_file : String) (st : Store) : List String :=
  (st.filter fun e => recordSourceIs source_file e.2).map Prod.fst

/-- Methods the class ChromaVectorStore defines, src/indexer/utils/
vector_store.py lines 5-47. -/
def chromaVectorStoreMethods : List String :=
  ["__init__", "add_documents", "delete_documents", "get_documents_by_source",
   "get_collection"]

/-- Method name every FileWatchHandler event handler invokes on the store
after its event work, src/indexer/indexer.py lines 111, 121 and 135. -/
def handlerDocCountMethod : String := "get_number_of_documents"

/-! ## Text splitter and chunker (src/indexer/utils/chunker.py)

Modelled from the spec: RecursiveCharacterTextSplitter is third-party
library code, absent from the sources.  The specification describes it as a
splitter that never exceeds chunk_size characters per chunk and repeats
chunk_overlap characters between consecutive chunks, so the model emits
maximal chunk_size windows whose consecutive members overlap in exactly
chunk_overlap characters. -/

/-- Window decomposition of a character list: each window holds at most cs
characters and consecutive windows share the final os characters of the
earlier one.  The fuel argument, instantiated with the list length, makes
the recursion structural. -/
def windowsF (cs os : Nat) : Nat → List Char → List (List Char)
  | 0, l => [l]
  | fuel + 1, l =>
    if l.length ≤ cs then [l]
    else l.take cs :: windowsF cs os fuel (l.drop (cs - os))

/-- Method split_text of the configured splitter, per the contract in the
specification. -/
def split_text (cs os : Nat) (s : String) : List String :=
  (windowsF cs os s.data.length s.data).map fun l => ⟨l⟩

/-- Chunker configuration, the two sizes given to FileChunker on
construction (src/indexer/utils/chunker.py lines 41-71); the data folder
plays no role in per-file chunking. -/
structure FileChunker where
  chunk_size : Nat
  chunk_overlap : Nat
deriving DecidableEq

/-- Lowercased suffix of the final path component including its dot, Python
pathlib Path.suffix composed with str.lower, which is what
FileChunker._get_file_extension computes. -/
def pathSuffix (p : String) : List Char :=
  match (splitOnC '.' (pyBasename p).data).getLastD [] with
  | [] => []
  | seg =>
    if (pyBasename p).data.headD ' ' = '.' ∧ (splitOnC '.' (pyBasename p).data).length = 2
    then []
    else if (splitOnC '.' (pyBasename p).data).length = 1 then []
    else '.' :: lowerL seg

/-- Method _chunk_document of FileChunker, src/indexer/utils/chunker.py
lines 96-132: skip whitespace-only content, split the content, and emit one
document per chunk whose metadata is rebuilt from scratch with the keys
chunk_size, filename and type; parse-time metadata such as page or row
numbers is not forwarded. -/
def FileChunker.chunk_document (ch : FileChunker) (doc : ChunkDoc) (file_path : String) :
    List ChunkDoc :=
  if pyStripL doc.content.data = [] then []
  else
    let chunks := split_text ch.chunk_size ch.chunk_overlap doc.content
    let file_type :=
      match getMeta "type" doc.metadata with
      | some v => v
      | none => MVal.s ⟨(pathSuffix file_path).dropWhile (· = '.')⟩
    chunks.map fun t =>
      ⟨t, [("chunk_size", MVal.n t.length), ("filename", MVal.s (pyBasename file_path)),
           ("type", file_type)]⟩

/-- Outcome of the parser stage for one file, the environment part of
parse_file: the file can be missing, the parser for its extension can be
unavailable, the parse call can raise, or it yields parsed documents. -/
inductive ParseOutcome where
  | missing
  | noneAvailable
  | failed (msg : String)
  | parsed (docs : List ChunkDoc)
deriving DecidableEq

/-- Method parse_file of FileChunker, src/indexer/utils/chunker.py lines
134-169: a missing file, an unavailable parser, and a parser exception all
yield the empty chunk list (the exception is caught and logged); parsed
documents are chunked one by one and concatenated in order. -/
def FileChunker.parse_file (ch : FileChunker) (outcome : ParseOutcome)
    (file_path : String) : List ChunkDoc :=
  match outcome with
  | .missing => []
  | .noneAvailable => []
  | .failed _ => []
  | .parsed docs => docs.flatMap fun d => ch.chunk_document d file_path

/-! ## CSV parser (src/indexer/utils/parser.py lines 192-222) -/

/-- Content line of one CSV cell pair, the f-string key colon space value. -/
def csvPairLine (kv : List Char × List Char) : List Char :=
  kv.1 ++ ':' :: ' ' :: kv.2

/-- Content of one CSV data row under a header: key colon value lines for
the cells with nonempty values, joined by newlines, as the DictReader row
rendering in CSVParser.parse builds it. -/
def csvRowContent (keys : List (List Char)) (cells : List (List Char)) : List Char :=
  List.intercalate ['\n'] (((keys.zip cells).filter fun kv => kv.2 ≠ []).map csvPairLine)

/-- Method parse of CSVParser for the default arguments (comma delimiter,
has_header true), given the file content: the first nonblank line is the
header, every further nonblank line is a data row numbered from 1, and each
row document carries source, type csv, filename and row metadata.  Quoted
fields are not modelled; the embedding covers the quote-free fragment of
csv.DictReader. -/
def CSVParser_parse (source : String) (content : String) : List ChunkDoc :=
  let lines := (splitOnC '\n' content.data).filter fun l => l ≠ []
  match lines with
  | [] => []
  | header :: rows =>
    let keys := splitOnC ',' header
    rows.enum.map fun e =>
      ⟨⟨csvRowContent keys (splitOnC ',' e.2)⟩,
       [("source", MVal.s source), ("type", MVal.s "csv"),
        ("filename", MVal.s (pyBasename source)), ("row", MVal.n (e.1 + 1))]⟩

/-! ## Indexing orchestrator (src/indexer/indexer.py lines 42-136) -/

/-- Keyed record the orchestrator builds for ordinal i of a file: the
positional id and the chunk document with the source path added to its
metadata (index_file lines 60-71). -/
def chunkRecord (file_path : String) (i : Nat) (d : ChunkDoc) : String × IndexRecord :=
  (generate_doc_id file_path i, ⟨d.content, setMeta "source" (MVal.s file_path) d.metadata⟩)

/-- Keyed records for a chunk list, ordinals counted from start. -/
def chunkRecords (file_path : String) (start : Nat) : List ChunkDoc → List (String × IndexRecord)
  | [] => []
  | d :: ds => chunkRecord file_path start d :: chunkRecords file_path (start + 1) ds

/-- Function index_file of src/indexer/indexer.py lines 42-77: unsupported
files index zero chunks; otherwise the file is parsed and chunked, and when
chunks exist their contents, positional ids and source-tagged metadatas are
upserted; the chunk count is returned.  The parse argument stands for
chunker.parse_file with its environment fixed, and is the empty list in
every failure case, so the except branch returning 0 is unreachable in the
embedding. -/
def index_file (parse : String → List ChunkDoc) (file_path : String) (store : Store) :
    Store × Nat :=
  if !is_supported_file file_path then (store, 0)
  else
    let chunked_docs := parse file_path
    if chunked_docs.isEmpty then (store, 0)
    else
      let contents := chunked_docs.map ChunkDoc.content
      let ids := (List.range chunked_docs.length).map (generate_doc_id file_path)
      let metadatas := chunked_docs.map fun d => setMeta "source" (MVal.s file_path) d.metadata
      (add_documents ids contents metadatas store, chunked_docs.length)

/-- Function remove_file_from_index of src/indexer/indexer.py lines 80-91:
look up the ids recorded for the path, delete them when there are any, and
return how many were removed; zero matching ids removes nothing and
returns 0. -/
def remove_file_from_index (file_path : String) (store : Store) : Store × Nat :=
  let doc_ids := get_documents_by_source file_path store
  if !doc_ids.isEmpty then (delete_documents doc_ids store, doc_ids.length)
  else (store, 0)

/-- Store effect of FileWatchHandler.on_modified, src/indexer/indexer.py
lines 124-136: directory events are ignored; for a supported file the old
records are removed and the file is re-indexed.  The trailing document
count call does not touch the store contents (its failure is the subject of
the claim on the count method). -/
def on_modified (parse : String → List ChunkDoc) (is_directory : Bool)
    (src_path : String) (store : Store) : Store :=
  if is_directory then store
  else if is_supported_file src_path then
    (index_file parse src_path (remove_file_from_index src_path store).1).1
  else store

/-- Concatenation of chunks with the first os characters of every later
chunk removed, the reading of the round-trip law in the specification. -/
def overlapJoinL (os : Nat) : List (List Char) → List Char
  | [] => []
  | w :: ws => w ++ ((ws.map (List.drop os)).flatten)

/-- String-level overlap-removing concatenation. -/
def overlapJoin (os : Nat) (chunks : List String) : String :=
  ⟨overlapJoinL os (chunks.map String.data)⟩

/-! ## Concrete fixtures used by the witness and scenario theorems -/

/-- Parse result fixture: one short parsed-and-chunked text document. -/
def wParse : String → List ChunkDoc := fun _ => [⟨"hello world", [("type", MVal.s "text")]⟩]

/-- Store fixture holding one record of an unrelated source file. -/
def wStore : Store :=
  [("other.txt_0a1b2c3d_0",
    ⟨"old text",
     [("chunk_size", MVal.n 8), ("filename", MVal.s "other.txt"),
      ("type", MVal.s "text"), ("source", MVal.s "datafolder/other.txt")]⟩)]

/-- Record the orchestrator builds for the fixture chunk of wParse. -/
def wRec : IndexRecord :=
  ⟨"hello world", setMeta "source" (MVal.s "datafolder/a.txt") [("type", MVal.s "text")]⟩

/-- Chunk output of the pipeline on the CSV scenario of the specification:
header name,age and one data row Alice,30, with the chunker configured as
in the indexer (chunk_size 1000, chunk_overlap 200). -/
def c7Chunks : List ChunkDoc :=
  (FileChunker.mk 1000 200).parse_file
    (.parsed (CSVParser_parse "datafolder/data.csv" "name,age\nAlice,30"))
    "datafolder/data.csv"

/-- Document fixture for the chunk round-trip witness. -/
def c8doc : ChunkDoc := ⟨"abcdefgh", [("type", MVal.s "text")]⟩

/-! ## Hash and decimal rendering facts -/

/-- RFC 1321 test vector for the empty message, checking the MD5
embedding. -/
theorem md5Hex_empty_vector : md5Hex "" = "d41d8cd98f00b204e9800998ecf8427e" := by
  set_option maxRecDepth 100000 in decide

/-- RFC 1321 test vector for the message abc, checking the MD5
embedding. -/
theorem md5Hex_abc_vector : md5Hex "abc" = "900150983cd24fb0d6963f7d28e17f72" := by
  set_option maxRecDepth 100000 in decide

/-- Character value round trip for digits below ten. -/
theorem charDigitVal_digitChar : ∀ d : Nat, d < 10 → charDigitVal (Nat.digitChar d) = d := by
  decide

/-- Folding the digit-value step over the accumulator-passing core of
Nat.repr recovers the rendered number. -/
theorem toDigitsCore_foldl (f : Nat) :
    ∀ (n : Nat) (acc : List Char), n < 10 ^ f →
      (Nat.toDigitsCore 10 f n acc).foldl digitsStep 0 = acc.foldl digitsStep n := by
  induction f with
  | zero =>
    intro n acc hn
    have hn0 : n = 0 := by omega
    simp [Nat.toDigitsCore, hn0]
  | succ f ih =>
    intro n acc hn
    by_cases hdiv : n / 10 = 0
    · have hlt : n < 10 := by omega
      have hmod : n % 10 = n := Nat.mod_eq_of_lt hlt
      simp [Nat.toDigitsCore, hdiv, digitsStep, hmod]
      rw [charDigitVal_digitChar n hlt]
    · have hq : n / 10 < 10 ^ f := by
        rw [Nat.div_lt_iff_lt_mul (by norm_num : 0 < 10)]
        calc n < 10 ^ (f + 1) := hn
        _ = 10 ^ f * 10 := by ring
      rw [Nat.toDigitsCore]
      simp only [hdiv, if_false]
      rw [ih (n / 10) _ hq]
      simp [digitsStep, charDigitVal_digitChar (n % 10) (Nat.mod_lt n (by norm_num))]
      congr 1
      omega

/-- The decimal value of the characters of Nat.repr n is n. -/
theorem digitsVal_repr (n : Nat) : digitsVal (Nat.repr n).data = n := by
  have h : n < 10 ^ (n + 1) := by
    calc n < 10 ^ n := Nat.lt_pow_self (by norm_num) n
    _ ≤ 10 ^ (n + 1) := Nat.pow_le_pow_right (by norm_num) (Nat.le_succ n)
  have := toDigitsCore_foldl (n + 1) n [] h
  simpa [Nat.repr, Nat.toDigits, List.asString, digitsVal] using this

/-- Nat.repr is injective. -/
theorem nat_repr_inj {m n : Nat} (h : Nat.repr m = Nat.repr n) : m = n := by
  have hm := digitsVal_repr m
  have hn := digitsVal_repr n
  rw [h] at hm
  omega

/-- Appending the decimal rendering of a number to a fixed string is
injective in that number. -/
theorem append_repr_inj (a : String) {i j : Nat}
    (h : a ++ Nat.repr i = a ++ Nat.repr j) : i = j := by
  have hd := congrArg String.data h
  simp only [String.data_append] at hd
  have h1 := List.append_cancel_left hd
  have hm := digitsVal_repr i
  rw [show (Nat.repr i).data = (Nat.repr j).data from h1, digitsVal_repr j] at hm
  omega

/-- For a fixed path, generate_doc_id is injective in the chunk index. -/
theorem generate_doc_id_inj (p : String) {i j : Nat}
    (h : generate_doc_id p i = generate_doc_id p j) : i = j := by
  simp only [generate_doc_id] at h
  exact append_repr_inj _ h

/-! ## Store lemmas -/

/-- Keys of a cons cell. -/
theorem keysOf_cons (k : String) (v : IndexRecord) (st : Store) :
    keysOf ((k, v) :: st) = k :: keysOf st := rfl

/-- Two store entries with the same key are equal when keys are nodup. -/
theorem store_key_inj {st : Store} (h : (keysOf st).Nodup)
    {e1 e2 : String × IndexRecord} (h1 : e1 ∈ st) (h2 : e2 ∈ st)
    (hk : e1.1 = e2.1) : e1 = e2 :=
  List.inj_on_of_nodup_map h h1 h2 hk

/-- Key membership after an upsert. -/
theorem mem_keysOf_colAdd {st : Store} {id x : String} {r : IndexRecord} :
    x ∈ keysOf (colAdd st id r) ↔ x = id ∨ x ∈ keysOf st := by
  induction st with
  | nil => simp [colAdd, keysOf]
  | cons e rest ih =>
    obtain ⟨k, v⟩ := e
    by_cases hek : k = id
    · subst hek
      have hstep : colAdd ((k, v) :: rest) k r = (k, r) :: rest := by simp [colAdd]
      rw [hstep, keysOf_cons, keysOf_cons]
      simp only [List.mem_cons]
      tauto
    · have hstep : colAdd ((k, v) :: rest) id r = (k, v) :: colAdd rest id r := by
        simp [colAdd, hek]
      rw [hstep, keysOf_cons, keysOf_cons]
      simp only [List.mem_cons, ih]
      tauto

/-- Upserts preserve nodup keys. -/
theorem nodup_keysOf_colAdd {st : Store} (h : (keysOf st).Nodup)
    (id : String) (r : IndexRecord) : (keysOf (colAdd st id r)).Nodup := by
  induction st with
  | nil => simp [colAdd, keysOf]
  | cons e rest ih =>
    obtain ⟨k, v⟩ := e
    rw [keysOf_cons, List.nodup_cons] at h
    by_cases hek : k = id
    · subst hek
      simpa [colAdd, keysOf_cons, List.nodup_cons] using h
    · rw [colAdd, if_neg hek, keysOf_cons, List.nodup_cons]
      refine ⟨fun hmem => ?_, ih h.2⟩
      rcases mem_keysOf_colAdd.1 hmem with h1 | h1
      · exact hek h1
      · exact h.1 h1

/-- Membership after an upsert, for stores with nodup keys. -/
theorem mem_colAdd {st : Store} (h : (keysOf st).Nodup) {id : String} {r : IndexRecord}
    {id2 : String} {r2 : IndexRecord} :
    (id2, r2) ∈ colAdd st id r ↔ (id2 = id ∧ r2 = r) ∨ ((id2, r2) ∈ st ∧ id2 ≠ id) := by
  induction st with
  | nil => simp [colAdd]
  | cons e rest ih =>
    obtain ⟨k, v⟩ := e
    rw [keysOf_cons, List.nodup_cons] at h
    have hknot : ∀ r3 : IndexRecord, (k, r3) ∈ rest → False := fun r3 hmem =>
      h.1 (List.mem_map_of_mem Prod.fst hmem)
    by_cases hek : k = id
    · subst hek
      have hstep : colAdd ((k, v) :: rest) k r = (k, r) :: rest := by
        simp [colAdd]
      rw [hstep, List.mem_cons, List.mem_cons]
      have hfact : (id2, r2) ∈ rest → id2 ≠ k := fun hmem hid =>
        hknot r2 (hid ▸ hmem)
      have hkv : (id2, r2) = (k, v) → id2 = k ∧ r2 = v := by
        intro heq
        rwa [Prod.mk.injEq] at heq
      simp only [Prod.mk.injEq]
      constructor
      · rintro (⟨rfl, rfl⟩ | hmem)
        · exact Or.inl ⟨rfl, rfl⟩
        · exact Or.inr ⟨Or.inr hmem, hfact hmem⟩
      · rintro (⟨rfl, rfl⟩ | ⟨⟨rfl, rfl⟩ | hmem, hne⟩)
        · exact Or.inl ⟨rfl, rfl⟩
        · exact absurd rfl hne
        · exact Or.inr hmem
    · have hstep : colAdd ((k, v) :: rest) id r = (k, v) :: colAdd rest id r := by
        simp [colAdd, hek]
      rw [hstep, List.mem_cons, ih h.2, List.mem_cons]
      have hkv : (id2, r2) = (k, v) → id2 ≠ id := by
        intro heq
        rw [Prod.mk.injEq] at heq
        exact heq.1 ▸ hek
      tauto

/-- Upserting a pair that is already present leaves the store unchanged. -/
theorem colAdd_self {st : Store} (h : (keysOf st).Nodup) {id : String} {r : IndexRecord}
    (hmem : (id, r) ∈ st) : colAdd st id r = st := by
  induction st with
  | nil => cases hmem
  | cons e rest ih =>
    obtain ⟨k, v⟩ := e
    rw [keysOf_cons, List.nodup_cons] at h
    rcases List.mem_cons.1 hmem with heq | hmem2
    · obtain ⟨rfl, rfl⟩ := Prod.mk.injEq .. ▸ heq
      simp [colAdd]
    · by_cases hek : k = id
      · subst hek
        exact absurd (List.mem_map_of_mem Prod.fst hmem2) h.1
      · rw [colAdd, if_neg hek, ih h.2 hmem2]

/-- Folded upserts preserve nodup keys. -/
theorem nodup_keysOf_addAll (ts : List (String × IndexRecord)) {st : Store}
    (h : (keysOf st).Nodup) : (keysOf (addAll ts st)).Nodup := by
  induction ts generalizing st with
  | nil => exact h
  | cons t ts ih => exact ih (nodup_keysOf_colAdd h t.1 t.2)

/-- Membership after folded upserts with pairwise distinct new ids. -/
theorem mem_addAll {ts : List (String × IndexRecord)} {st : Store}
    (h : (keysOf st).Nodup) (hts : (ts.map Prod.fst).Nodup)
    {id : String} {r : IndexRecord} :
    (id, r) ∈ addAll ts st ↔
      (id, r) ∈ ts ∨ ((id, r) ∈ st ∧ id ∉ ts.map Prod.fst) := by
  induction ts generalizing st with
  | nil => simp [addAll]
  | cons t ts ih =>
    obtain ⟨tid, tr⟩ := t
    rw [List.map_cons, List.nodup_cons] at hts
    have step : addAll ((tid, tr) :: ts) st = addAll ts (colAdd st tid tr) := rfl
    rw [step, ih (nodup_keysOf_colAdd h tid tr) hts.2, mem_colAdd h]
    have f1 : id = tid → id ∉ List.map Prod.fst ts := fun hid => hid ▸ hts.1
    simp only [List.mem_cons, List.map_cons, not_or, Prod.mk.injEq]
    tauto

/-- Folded upserts of pairs that are all already present leave the store
unchanged. -/
theorem addAll_self {ts : List (String × IndexRecord)} {st : Store}
    (h : (keysOf st).Nodup) (hall : ∀ t ∈ ts, t ∈ st) : addAll ts st = st := by
  induction ts with
  | nil => rfl
  | cons t ts ih =>
    obtain ⟨tid, tr⟩ := t
    have step : addAll ((tid, tr) :: ts) st = addAll ts (colAdd st tid tr) := rfl
    rw [step, colAdd_self h (hall _ (List.mem_cons_self _ _))]
    exact ih fun t ht => hall t (List.mem_cons_of_mem _ ht)

/-- Setting the source key makes the source lookup return it. -/
theorem getMeta_setMeta (k : String) (v : MVal) (m : Metadata) :
    getMeta k (setMeta k v m) = some v := by
  induction m with
  | nil => simp [setMeta, getMeta, List.lookup]
  | cons e rest ih =>
    obtain ⟨k2, v2⟩ := e
    by_cases hk : k2 = k
    · subst hk
      simp [setMeta, getMeta, List.lookup]
    · have hbeq : (k == k2) = false := beq_eq_false_iff_ne.2 fun h => hk h.symm
      simp only [setMeta, if_neg hk, getMeta, List.lookup, hbeq]
      exact ih

/-- Every record the orchestrator builds for a path carries that path as its
metadata source field. -/
theorem sourceIs_chunkRecord {p : String} {start : Nat} {docs : List ChunkDoc}
    {id : String} {r : IndexRecord} (hmem : (id, r) ∈ chunkRecords p start docs) :
    recordSourceIs p r = true := by
  induction docs generalizing start with
  | nil => cases hmem
  | cons d ds ih =>
    rcases List.mem_cons.1 hmem with heq | hmem2
    · have : r = ⟨d.content, setMeta "source" (MVal.s p) d.metadata⟩ :=
        congrArg Prod.snd heq
      rw [this]
      simp [recordSourceIs, getMeta_setMeta]
    · exact ih hmem2

/-- Ids of the records the orchestrator builds: the positional ids from
start, in order. -/
theorem chunkRecords_map_fst (p : String) (start : Nat) (docs : List ChunkDoc) :
    (chunkRecords p start docs).map Prod.fst
      = (List.range' start docs.length).map (generate_doc_id p) := by
  induction docs generalizing start with
  | nil => rfl
  | cons d ds ih => simp [chunkRecords, chunkRecord, List.range', ih]

/-- The positional ids of one indexing pass are pairwise distinct. -/
theorem nodup_chunkRecords_fst (p : String) (start : Nat) (docs : List ChunkDoc) :
    ((chunkRecords p start docs).map Prod.fst).Nodup := by
  rw [chunkRecords_map_fst]
  exact (List.nodup_range' _ _).map fun i j hij => generate_doc_id_inj p hij

/-- The triple zip the adapter receives from index_file is exactly the
orchestrator record list. -/
theorem zipTriples_chunkRecords (p : String) (start : Nat) (docs : List ChunkDoc) :
    zipTriples ((List.range' start docs.length).map (generate_doc_id p))
        (docs.map ChunkDoc.content)
        (docs.map fun d => setMeta "source" (MVal.s p) d.metadata)
      = chunkRecords p start docs := by
  induction docs generalizing start with
  | nil => rfl
  | cons d ds ih => simp [List.range', zipTriples, chunkRecords, chunkRecord, ih]

/-- Store effect of index_file on a supported file with nonempty chunks:
folded upserts of the orchestrator records. -/
theorem index_file_store_eq (parse : String → List ChunkDoc) (p : String) (st : Store)
    (hs : is_supported_file p = true) (hne : (parse p).isEmpty = false) :
    (index_file parse p st).1 = addAll (chunkRecords p 0 (parse p)) st := by
  unfold index_file add_documents
  rw [hs]
  simp only [Bool.not_true, Bool.false_eq_true, if_false, hne]
  rw [List.range_eq_range', zipTriples_chunkRecords]

/-- Removal rewrites the store to the records of all other sources, in
order, whether or not the path had records. -/
theorem remove_eq_filter (p : String) (st : Store) (h : (keysOf st).Nodup) :
    (remove_file_from_index p st).1 = st.filter fun e => !recordSourceIs p e.2 := by
  unfold remove_file_from_index
  by_cases hids : (get_documents_by_source p st).isEmpty
  · simp only [hids, Bool.not_true, Bool.false_eq_true, if_false]
    have hnil : st.filter (fun e => recordSourceIs p e.2) = [] := by
      have := List.isEmpty_iff.1 hids
      unfold get_documents_by_source at this
      exact List.map_eq_nil_iff.1 this
    have hall : ∀ e ∈ st, recordSourceIs p e.2 = false := by
      intro e he
      by_contra hne
      have : e ∈ st.filter (fun e => recordSourceIs p e.2) :=
        List.mem_filter.2 ⟨he, by revert hne; cases recordSourceIs p e.2 <;> simp⟩
      rw [hnil] at this
      cases this
    symm
    refine List.filter_eq_self.2 fun e he => ?_
    rw [hall e he]
    rfl
  · simp only [hids, Bool.not_false, if_true]
    unfold delete_documents
    refine List.filter_congr fun e he => ?_
    have hiff : e.1 ∈ get_documents_by_source p st ↔ recordSourceIs p e.2 = true := by
      constructor
      · intro hin
        unfold get_documents_by_source at hin
        obtain ⟨e2, he2, hkey⟩ := List.mem_map.1 hin
        obtain ⟨he2s, hsrc⟩ := List.mem_filter.1 he2
        have : e2 = e := store_key_inj h he2s he hkey
        rwa [this] at hsrc
      · intro hsrc
        exact List.mem_map_of_mem Prod.fst (List.mem_filter.2 ⟨he, hsrc⟩)
    have : decide (e.1 ∈ get_documents_by_source p st) = recordSourceIs p e.2 := by
      rcases Bool.eq_false_or_eq_true (recordSourceIs p e.2) with hb | hb <;> rw [hb] <;>
        simp [hiff, hb]
    rw [this]

/-- After removal the source lookup for the path is empty. -/
theorem get_documents_by_source_after_remove (p : String) (st : Store)
    (h : (keysOf st).Nodup) :
    get_documents_by_source p (remove_file_from_index p st).1 = [] := by
  rw [remove_eq_filter p st h]
  unfold get_documents_by_source
  rw [List.filter_filter]
  have : ∀ e : String × IndexRecord,
      (recordSourceIs p e.2 && !recordSourceIs p e.2) = false := by
    intro e
    cases recordSourceIs p e.2 <;> rfl
  simp [this]

/-! ## Splitter lemmas -/

/-- Dropping the overlap from every window and concatenating yields the
original list minus its first os characters. -/
theorem windowsF_drop_join (cs os : Nat) (hos : os < cs) :
    ∀ (f : Nat) (l : List Char), l.length ≤ f →
      ((windowsF cs os f l).map (List.drop os)).flatten = l.drop os := by
  intro f
  induction f with
  | zero => intro l hl; simp [windowsF]
  | succ f ih =>
    intro l hl
    rw [windowsF]
    by_cases hlen : l.length ≤ cs
    · simp [hlen]
    · simp only [hlen, if_false, List.map_cons, List.flatten_cons]
      have hfuel : (l.drop (cs - os)).length ≤ f := by
        rw [List.length_drop]
        omega
      rw [ih _ hfuel, List.drop_drop, List.drop_take]
      have h1 : cs - os + os = cs := by omega
      rw [h1]
      have h2 : List.take (cs - os) (l.drop os) ++ List.drop (cs - os) (l.drop os)
          = l.drop os := List.take_append_drop _ _
      rw [List.drop_drop] at h2
      have h3 : os + (cs - os) = cs := by omega
      rw [h3] at h2
      exact h2

/-- The overlap-removing concatenation of the windows is the original list. -/
theorem windowsF_overlapJoin (cs os : Nat) (hos : os < cs) :
    ∀ (f : Nat) (l : List Char), l.length ≤ f →
      overlapJoinL os (windowsF cs os f l) = l := by
  intro f
  cases f with
  | zero =>
    intro l hl
    have : l = [] := List.eq_nil_of_length_eq_zero (by omega)
    subst this
    rfl
  | succ f =>
    intro l hl
    rw [windowsF]
    by_cases hlen : l.length ≤ cs
    · simp [hlen, overlapJoinL]
    · simp only [hlen, if_false, overlapJoinL]
      have hfuel : (l.drop (cs - os)).length ≤ f := by
        rw [List.length_drop]
        omega
      rw [windowsF_drop_join cs os hos f _ hfuel, List.drop_drop]
      have h1 : cs - os + os = cs := by omega
      rw [h1, List.take_append_drop]

/-- Every window fits in cs characters. -/
theorem windowsF_length_le (cs os : Nat) (hos : os < cs) :
    ∀ (f : Nat) (l : List Char), l.length ≤ f →
      ∀ w ∈ windowsF cs os f l, w.length ≤ cs := by
  intro f
  induction f with
  | zero =>
    intro l hl w hw
    have : l = [] := List.eq_nil_of_length_eq_zero (by omega)
    subst this
    simp [windowsF] at hw
    subst hw
    simp
  | succ f ih =>
    intro l hl w hw
    rw [windowsF] at hw
    by_cases hlen : l.length ≤ cs
    · simp [hlen] at hw
      subst hw
      exact hlen
    · simp only [hlen, if_false, List.mem_cons] at hw
      rcases hw with rfl | hw
      · simp only [List.length_take]
        exact Nat.min_le_left cs l.length
      · have hfuel : (l.drop (cs - os)).length ≤ f := by
          rw [List.length_drop]
          omega
        exact ih _ hfuel w hw

/-! ## Claim theorems -/

/-- C3 counterexample: the file a.doc satisfies the support predicate the
claim states (extension doc is in the claimed set and the name is not
hidden), yet the watcher predicate is_supported_file rejects it, because
SUPPORTED_EXTENSIONS carries neither doc nor gif. -/
theorem claim_C3_counterexample :
    claimSupported "a.doc" = true ∧ is_supported_file "a.doc" = false := by
  decide

/-- C3 amended: the watcher treats a file as supported exactly when its
lowercased final dot segment (the whole lowercased path when it has no dot)
is one of bmp, csv, docx, jpeg, jpg, pdf, png, tiff, txt, and the basename
does not begin with a dot; doc and gif are not in the set. -/
theorem claim_C3_supported_iff_amended (p : String) :
    is_supported_file p = amendedSupported p := by
  unfold is_supported_file amendedSupported
  have hiff : extOf p ∈ SUPPORTED_EXTENSIONS ↔ extOf p ∈ amendedExtensionSet := by
    constructor <;> intro h <;>
      · simp only [SUPPORTED_EXTENSIONS, amendedExtensionSet, List.mem_cons,
          List.not_mem_nil, or_false] at h ⊢
        tauto
  rw [decide_eq_decide.2 hiff]

/-- C4: the handlers call get_number_of_documents on the store after every
event, but ChromaVectorStore defines no method of that name (and none named
count), so the call fails on an undefined attribute; the claim that the
post-event document-count call succeeds is false of the code. -/
theorem claim_C4_count_method_undefined :
    handlerDocCountMethod ∉ chromaVectorStoreMethods := by
  decide

/-- C5: the chunk id assigned to ordinal i of a file is the basename, an
underscore, the first 8 hex characters of the md5 of the full path, an
underscore, and the decimal ordinal; it depends on nothing but the path and
the ordinal, so it is identical across indexing passes and independent of
file content. -/
theorem claim_C5_chunk_id_formula (path : String) (ordinal : Nat) :
    generate_doc_id path ordinal = claimChunkIdFormula path ordinal := by
  unfold generate_doc_id claimChunkIdFormula
  apply String.ext
  simp only [String.data_append, List.append_assoc]
  rfl

/-- C10: the ids produced for ordinals 0 to n-1 of a single indexing pass
over one path are pairwise distinct, because generate_doc_id is injective
in the ordinal for a fixed path. -/
theorem claim_C10_ids_nodup (path : String) (n : Nat) :
    ((List.range n).map (generate_doc_id path)).Nodup :=
  (List.nodup_range n).map fun _ _ hij => generate_doc_id_inj path hij

/-- C7 counterexample: on the CSV with header name,age and single row
Alice,30 the pipeline produces exactly one chunk with the stated content,
but the metadata of that chunk has no row key at all: _chunk_document
rebuilds chunk metadata from scratch and drops row-level provenance. -/
theorem claim_C7_counterexample :
    c7Chunks.length = 1
      ∧ (c7Chunks.headD ⟨"", []⟩).content = "name: Alice\nage: 30"
      ∧ getMeta "row" (c7Chunks.headD ⟨"", []⟩).metadata = none := by
  decide

/-- C7 amended: the CSV parser produces exactly one parsed unit with
content name colon Alice newline age colon 30 and metadata carrying row 1
and type csv; the single chunk made from it keeps the content and the type
csv, but its metadata is exactly chunk_size 19, filename and type, with the
row number not forwarded. -/
theorem claim_C7_amended :
    CSVParser_parse "datafolder/data.csv" "name,age\nAlice,30"
        = [⟨"name: Alice\nage: 30",
            [("source", MVal.s "datafolder/data.csv"), ("type", MVal.s "csv"),
             ("filename", MVal.s "data.csv"), ("row", MVal.n 1)]⟩]
      ∧ c7Chunks
        = [⟨"name: Alice\nage: 30",
            [("chunk_size", MVal.n 19), ("filename", MVal.s "data.csv"),
             ("type", MVal.s "csv")]⟩] := by
  decide

/-- C9: when the parser stage fails on a file, whether because the file is
missing or because the parse call raised, index_file returns a chunk count
of 0 and leaves the store untouched; the failure is absorbed before the
add, so nothing escapes toward the watch loop. -/
theorem claim_C9_failure_zero (ch : FileChunker) (outcome : ParseOutcome)
    (path : String) (store : Store)
    (hfail : outcome = ParseOutcome.missing ∨ ∃ msg, outcome = ParseOutcome.failed msg) :
    index_file (ch.parse_file outcome) path store = (store, 0) := by
  have hnil : ∀ q, ch.parse_file outcome q = [] := by
    rcases hfail with rfl | ⟨msg, rfl⟩ <;> intro q <;> rfl
  unfold index_file
  by_cases hsup : is_supported_file path = true
  · rw [hsup]
    simp [hnil]
  · have hs : is_supported_file path = false := by
      cases h : is_supported_file path
      · rfl
      · exact absurd h hsup
    rw [hs]
    simp

/-- C9 witness: a missing text file indexes zero chunks into the fixture
store and leaves it unchanged. -/
theorem claim_C9_witness :
    index_file ((FileChunker.mk 1000 200).parse_file ParseOutcome.missing)
        "datafolder/a.txt" wStore = (wStore, 0) :=
  claim_C9_failure_zero ⟨1000, 200⟩ ParseOutcome.missing "datafolder/a.txt" wStore
    (Or.inl rfl)

/-- C6: removing a file deletes all and only its records: the resulting
store is the original filtered to the other sources in order, the source
lookup for the path is empty afterward, and a path with no indexed records
removes nothing and reports 0. -/
theorem claim_C6_delete_frame (path : String) (store : Store)
    (hnd : (keysOf store).Nodup) :
    (remove_file_from_index path store).1
        = store.filter (fun e => !recordSourceIs path e.2)
      ∧ get_documents_by_source path (remove_file_from_index path store).1 = []
      ∧ (get_documents_by_source path store = [] →
          remove_file_from_index path store = (store, 0)) := by
  refine ⟨remove_eq_filter path store hnd,
    get_documents_by_source_after_remove path store hnd, ?_⟩
  intro hz
  unfold remove_file_from_index
  rw [hz]
  rfl

/-- C6 witness: deleting a never-indexed path from the fixture store leaves
it unchanged and reports zero removed, and deleting the indexed path
empties its lookup. -/
theorem claim_C6_witness :
    (remove_file_from_index "datafolder/other.txt" wStore).1
        = wStore.filter (fun e => !recordSourceIs "datafolder/other.txt" e.2)
      ∧ get_documents_by_source "datafolder/other.txt"
          (remove_file_from_index "datafolder/other.txt" wStore).1 = []
      ∧ (get_documents_by_source "datafolder/other.txt" wStore = [] →
          remove_file_from_index "datafolder/other.txt" wStore = (wStore, 0)) :=
  claim_C6_delete_frame "datafolder/other.txt" wStore (by decide)

/-- C1: after the on_modified store effect for a supported file completes,
the records whose metadata source equals the path are exactly the keyed
chunk records produced by parsing and chunking the current content: every
surviving pair with that source is one of the new chunk records and every
new chunk record is present, so nothing of the old content remains and no
new chunk is missing. -/
theorem claim_C1_modified_converges (parse : String → List ChunkDoc) (path : String)
    (store : Store) (hnd : (keysOf store).Nodup) (hsup : is_supported_file path = true)
    (id : String) (r : IndexRecord) :
    ((id, r) ∈ on_modified parse false path store ∧ recordSourceIs path r = true)
      ↔ (id, r) ∈ chunkRecords path 0 (parse path) := by
  have hmod : on_modified parse false path store
      = (index_file parse path (remove_file_from_index path store).1).1 := by
    unfold on_modified
    simp [hsup]
  have hst1 : (remove_file_from_index path store).1
      = store.filter fun e => !recordSourceIs path e.2 :=
    remove_eq_filter path store hnd
  have hnd1 : (keysOf (remove_file_from_index path store).1).Nodup := by
    rw [hst1]
    exact List.Nodup.sublist ((List.filter_sublist store).map Prod.fst) hnd
  by_cases hemp : (parse path).isEmpty = true
  · have hnil : parse path = [] := List.isEmpty_iff.1 hemp
    have hidx : index_file parse path (remove_file_from_index path store).1
        = ((remove_file_from_index path store).1, 0) := by
      unfold index_file
      rw [hsup]
      simp [hemp]
    rw [hmod, hidx, hnil]
    constructor
    · rintro ⟨hmem, hsrc⟩
      rw [hst1] at hmem
      have h2 := (List.mem_filter.1 hmem).2
      rw [hsrc] at h2
      simp at h2
    · intro hmem
      cases hmem
  · have hne : (parse path).isEmpty = false := by
      cases h : (parse path).isEmpty
      · rfl
      · exact absurd h hemp
    rw [hmod, index_file_store_eq parse path _ hsup hne,
      mem_addAll hnd1 (nodup_chunkRecords_fst path 0 (parse path))]
    constructor
    · rintro ⟨hmem | ⟨hmem, hnotin⟩, hsrc⟩
      · exact hmem
      · exfalso
        rw [hst1] at hmem
        have h2 := (List.mem_filter.1 hmem).2
        rw [hsrc] at h2
        simp at h2
    · intro hmem
      exact ⟨Or.inl hmem, sourceIs_chunkRecord hmem⟩

/-- C1 witness: modifying the fixture file replaces the store contents so
that the record of chunk 0 of the new content, and only such records, carry
the path as source. -/
theorem claim_C1_witness :
    ((generate_doc_id "datafolder/a.txt" 0, wRec)
        ∈ on_modified wParse false "datafolder/a.txt" wStore
      ∧ recordSourceIs "datafolder/a.txt" wRec = true)
      ↔ (generate_doc_id "datafolder/a.txt" 0, wRec)
        ∈ chunkRecords "datafolder/a.txt" 0 (wParse "datafolder/a.txt") :=
  claim_C1_modified_converges wParse "datafolder/a.txt" wStore (by decide) (by decide)
    (generate_doc_id "datafolder/a.txt" 0) wRec

/-- C2: running index_file twice in a row on the same unchanged file gives
a second run that rewrites each record to itself, so the store after the
second run is the store after the first, and in particular the id set that
find_ids_by_source returns does not grow and no error path is taken: the
positional ids repeat and the add is an upsert. -/
theorem claim_C2_index_twice_idempotent (parse : String → List ChunkDoc) (path : String)
    (store : Store) (hnd : (keysOf store).Nodup) :
    (index_file parse path (index_file parse path store).1).1
        = (index_file parse path store).1
      ∧ get_documents_by_source path (index_file parse path (index_file parse path store).1).1
        = get_documents_by_source path (index_file parse path store).1 := by
  have hmain : (index_file parse path (index_file parse path store).1).1
      = (index_file parse path store).1 := by
    by_cases hsup : is_supported_file path = true
    · by_cases hemp : (parse path).isEmpty = true
      · have h1 : index_file parse path store = (store, 0) := by
          unfold index_file
          rw [hsup]
          simp [hemp]
        rw [h1]
        simp [h1]
      · have hne : (parse path).isEmpty = false := by
          cases h : (parse path).isEmpty
          · rfl
          · exact absurd h hemp
        have h1 := index_file_store_eq parse path store hsup hne
        have h2 := index_file_store_eq parse path (index_file parse path store).1 hsup hne
        rw [h2, h1]
        refine addAll_self (nodup_keysOf_addAll _ hnd) fun t ht => ?_
        obtain ⟨tid, tr⟩ := t
        exact (mem_addAll hnd (nodup_chunkRecords_fst path 0 (parse path))).2 (Or.inl ht)
    · have hs : is_supported_file path = false := by
        cases h : is_supported_file path
        · rfl
        · exact absurd h hsup
      unfold index_file
      rw [hs]
      simp
  exact ⟨hmain, by rw [hmain]⟩

/-- C2 witness: indexing the fixture file twice into the fixture store
leaves the store of the first run unchanged, id lookup included. -/
theorem claim_C2_witness :
    (index_file wParse "datafolder/a.txt"
          (index_file wParse "datafolder/a.txt" wStore).1).1
        = (index_file wParse "datafolder/a.txt" wStore).1
      ∧ get_documents_by_source "datafolder/a.txt"
          (index_file wParse "datafolder/a.txt"
            (index_file wParse "datafolder/a.txt" wStore).1).1
        = get_documents_by_source "datafolder/a.txt"
            (index_file wParse "datafolder/a.txt" wStore).1 :=
  claim_C2_index_twice_idempotent wParse "datafolder/a.txt" wStore (by decide)

/-- C8: for a parsed unit whose content is not whitespace-only, joining the
chunk contents with the declared chunk_overlap characters removed between
consecutive chunks reconstructs the unit content exactly, and no chunk
content exceeds chunk_size characters, provided the overlap is smaller than
the chunk size. -/
theorem claim_C8_roundtrip_bound (ch : FileChunker) (doc : ChunkDoc) (path : String)
    (hos : ch.chunk_overlap < ch.chunk_size) (hne : pyStripL doc.content.data ≠ []) :
    overlapJoin ch.chunk_overlap ((ch.chunk_document doc path).map ChunkDoc.content)
        = doc.content
      ∧ ∀ c ∈ ch.chunk_document doc path, c.content.length ≤ ch.chunk_size := by
  have hchunks : (ch.chunk_document doc path).map ChunkDoc.content
      = split_text ch.chunk_size ch.chunk_overlap doc.content := by
    unfold FileChunker.chunk_document
    rw [if_neg hne, List.map_map]
    exact List.map_id' _
  constructor
  · rw [hchunks]
    unfold overlapJoin split_text
    rw [List.map_map]
    have hcomp : (String.data ∘ fun l : List Char => (⟨l⟩ : String))
        = fun l : List Char => l := rfl
    rw [hcomp, List.map_id',
      windowsF_overlapJoin ch.chunk_size ch.chunk_overlap hos _ _ (Nat.le_refl _)]
  · intro c hc
    unfold FileChunker.chunk_document at hc
    rw [if_neg hne] at hc
    obtain ⟨t, ht, rfl⟩ := List.mem_map.1 hc
    unfold split_text at ht
    obtain ⟨w, hw, rfl⟩ := List.mem_map.1 ht
    exact windowsF_length_le ch.chunk_size ch.chunk_overlap hos _ _ (Nat.le_refl _) w hw

/-- C8 witness: an 8-character document chunked with size 5 and overlap 2
rebuilds its content from the chunk list with the overlap removed. -/
theorem claim_C8_witness :
    overlapJoin 2 (((FileChunker.mk 5 2).chunk_document c8doc "t.txt").map
      ChunkDoc.content) = "abcdefgh" :=
  (claim_C8_roundtrip_bound ⟨5, 2⟩ c8doc "t.txt" (by decide) (by decide)).1

end DevAssure
